import Mathlib

/-!
# Verification of `barrels/LogMonkey/parse_log_file.py`

A shallow embedding of the LogMonkey log-file post-processing script.
Strings are modelled as `List Char`; the Python string primitives used by the
script (`str.find` with its `-1` "not found" sentinel, slicing with negative
index normalisation and clamping, `str.strip`) are modelled faithfully below.

A "line" is modelled as the text of one physical line *without* its trailing
newline.  Python's file iterator yields lines with the trailing `'\n'`
attached, but every consumer in the script is invariant under that choice:
the regex ends in `.*$` (where `$` also matches just before one trailing
newline, which `matchDotStarEnd` below reproduces), and every other use of
the raw line goes through `str.strip`, which removes the newline.
-/

/-- Python 2 `\w` with no regex flags: `[a-zA-Z0-9_]`. -/
def isWordChar (c : Char) : Bool := c.isAlpha || c.isDigit || c == '_'

/-- The regex character class `[0-9: -]` of the timestamp field (the final
`-` is literal since it closes the class). -/
def isTimestampChar (c : Char) : Bool := c.isDigit || c == ':' || c == ' ' || c == '-'

/-- The characters stripped by Python's `str.strip()` with no argument:
space, tab, newline, carriage return, vertical tab, form feed. -/
def isPySpace (c : Char) : Bool :=
  c == ' ' || c == '\t' || c == '\n' || c == '\r' || c == Char.ofNat 11 || c == Char.ofNat 12

/-- Index of the first occurrence of `c` in `l`, if any. -/
def charIdx (c : Char) : List Char → Option Nat
  | [] => none
  | a :: l => if a = c then some 0 else (charIdx c l).map (· + 1)

/-- Normalisation of a Python index for slicing / search start positions:
a negative index counts from the end and is clamped below at `0`;
a non-negative index is clamped above at the length. -/
def pyIdx (n : Nat) (i : Int) : Nat :=
  if i < 0 then (i + n).toNat else min i.toNat n

/-- Python `line.find(c, start)` for a single-character needle: the least
index `≥ start` (after normalisation) holding `c`, and `-1` if there is
none. -/
def pyFind (l : List Char) (c : Char) (start : Int) : Int :=
  match charIdx c (l.drop (pyIdx l.length start)) with
  | some j => ((pyIdx l.length start + j : Nat) : Int)
  | none => -1

/-- Python slice `l[a:b]`. -/
def pySlice (l : List Char) (a b : Int) : List Char :=
  (l.take (pyIdx l.length b)).drop (pyIdx l.length a)

/-- Python slice `l[a:]`. -/
def pySliceFrom (l : List Char) (a : Int) : List Char :=
  l.drop (pyIdx l.length a)

/-- Python `str.strip()`: remove leading and trailing whitespace. -/
def pyStrip (l : List Char) : List Char :=
  (((l.dropWhile isPySpace).reverse).dropWhile isPySpace).reverse

/-- Python `str.rstrip()`-like trailing-only strip (used to relate the
script's two-sided `strip` to the spec's "trailing whitespace" wording). -/
def pyStripRight (l : List Char) : List Char :=
  (l.reverse.dropWhile isPySpace).reverse

/-- The `LogLine` class of the script: one parsed log record. -/
structure LogLine where
  rawValue : List Char
  logFormat : List Char
  timestamp : List Char
  logLevel : List Char
  tag : List Char
  message : List Char
deriving DecidableEq

/-- `parse_log_line` (source lines 187-212): delimiter scanning with
`str.find` and slicing.  Every primitive used is total in Python (no
exception is ever raised): `find` signals absence by `-1` and slicing
clamps, which the model reproduces exactly. -/
def parse_log_line (line : List Char) : LogLine :=
  -- The log format is wrapped in parenthesis
  let startIndex : Int := pyFind line '(' 0 + 1
  let endIndex : Int := pyFind line ')' startIndex
  let logFormat := pySlice line startIndex endIndex
  -- The timestamp is wrapped in square brackets
  let startIndex2 : Int := pyFind line '[' 0 + 1
  let endIndex2 : Int := pyFind line ']' startIndex2
  let timestamp := pySlice line startIndex2 endIndex2
  -- The log level is wrapped in curly brackets
  let startIndex3 : Int := pyFind line '{' endIndex2 + 1
  let endIndex3 : Int := pyFind line '}' startIndex3
  let logLevel := pySlice line startIndex3 endIndex3
  -- The tag follows the log level and ends with a colon
  let startIndex4 : Int := endIndex3 + 1
  let endIndex4 : Int := pyFind line ':' startIndex4
  let tag := pyStrip (pySlice line startIndex4 endIndex4)
  -- The message is the rest of the line
  let startIndex5 : Int := endIndex4 + 1
  let message := pyStrip (pySliceFrom line startIndex5)
  ⟨line, logFormat, timestamp, logLevel, tag, message⟩

/-- `LogLine.matches_filters` (source lines 80-90). -/
def matches_filters (e : LogLine) (logLevel : Option (List Char))
    (tagFilter : Option (List (List Char))) : Bool :=
  -- Check against the log level first
  if (match logLevel with
      | some lv => decide (lv ≠ e.logLevel)
      | none => false) then false
  -- Check against the tag filter list
  else if (match tagFilter with
      | some tags => decide (e.tag ∉ tags)
      | none => false) then false
  -- By default the log level will match
  else true

/-- Python `"{:<w}".format(s)`: left justification to width `w`, padding
with spaces, never truncating. -/
def ljust (s : List Char) (w : Nat) : List Char :=
  s ++ List.replicate (w - s.length) ' '

/-- `LogLine.to_spaced_string` (source lines 99-105), instantiating the
format string `LOG_FILE_OUTPUT_FORMAT = "({0})[{1}] {{{2}}} {3}: {4}"`. -/
def to_spaced_string (e : LogLine) (logLevelWidth tagWidth : Nat) : List Char :=
  '(' :: e.logFormat ++ ')' :: '[' :: e.timestamp ++ ']' :: ' ' ::
    '{' :: ljust e.logLevel logLevelWidth ++ '}' :: ' ' ::
      ljust e.tag tagWidth ++ ':' :: ' ' :: e.message

/-- `LogLine.to_csv_string` (source lines 112-125), instantiating
`CSV_FILE_OUTPUT_FORMAT = "{0},{1},{2},{3}"`; each field is wrapped in
plain double quotes when it contains a comma, with no further escaping. -/
def to_csv_string (e : LogLine) : List Char :=
  let formattedTimestamp :=
    if ',' ∈ e.timestamp then '"' :: e.timestamp ++ ['"'] else e.timestamp
  let formattedLogLevel :=
    if ',' ∈ e.logLevel then '"' :: e.logLevel ++ ['"'] else e.logLevel
  let formattedTag :=
    if ',' ∈ e.tag then '"' :: e.tag ++ ['"'] else e.tag
  let formattedMessage :=
    if ',' ∈ e.message then '"' :: e.message ++ ['"'] else e.message
  formattedTimestamp ++ ',' :: formattedLogLevel ++ ',' :: formattedTag ++
    ',' :: formattedMessage

/-- The extension part (with its dot) of `os.path.splitext` for POSIX
paths, as computed by CPython's `genericpath._splitext` with `sep = '/'`
and `extsep = '.'`: the suffix from the last dot of the final path
component, unless every character of that component before the last dot
is itself a dot (a leading-dot file such as `".csv"` has no extension). -/
def splitextExt (p : List Char) : List Char :=
  let rb := p.reverse.takeWhile (fun c => !(c == '/'))
  let sufR := rb.takeWhile (fun c => !(c == '.'))
  match rb.dropWhile (fun c => !(c == '.')) with
  | [] => []
  | _ :: preR => if preR.any (fun c => !(c == '.')) then '.' :: sufR.reverse else []

/-- `LogLine.output_log_line` (source lines 135-148), modelled as the text
emitted for one entry.  `outputFile` is the destination file name
(`None` = standard output, where `print` appends the newline that
`outputFile.write("\n")` adds in the file case); the two global width
counters are passed explicitly. -/
def output_log_line (e : LogLine) (outputFile : Option (List Char))
    (spaceColumns : Bool) (logLevelWidth tagWidth : Nat) : List Char :=
  match outputFile with
  | some name =>
      (if (splitextExt name).drop 1 = "csv".data then to_csv_string e
       else if spaceColumns then to_spaced_string e logLevelWidth tagWidth
       else pyStrip e.rawValue) ++ ['\n']
  | none =>
      (if spaceColumns then to_spaced_string e logLevelWidth tagWidth
       else pyStrip e.rawValue) ++ ['\n']

/-- Width tracker state: the two module-level counters `LOG_LEVEL_WIDTH`
and `TAG_WIDTH` (source lines 15-16), initialised to zero at run start. -/
structure WidthState where
  logLevelWidth : Nat
  tagWidth : Nat
deriving DecidableEq

/-- The width update of `read_through_input_file` (source lines 174-178):
`if len(..) > WIDTH: WIDTH = len(..)` for both counters. -/
def observe (st : WidthState) (e : LogLine) : WidthState :=
  ⟨if e.logLevel.length > st.logLevelWidth then e.logLevel.length else st.logLevelWidth,
   if e.tag.length > st.tagWidth then e.tag.length else st.tagWidth⟩

/-- Consume one literal character of the pattern. -/
def expectChar (c : Char) : List Char → Option (List Char)
  | x :: r => if x = c then some r else none
  | [] => none

/-- Consume a literal string of the pattern. -/
def expectLit : List Char → List Char → Option (List Char)
  | [], l => some l
  | c :: cs, l => (expectChar c l).bind (expectLit cs)

/-- Consume a regex atom `[p]+`.  Greedy matching without backtracking is
exact here because in `LOG_LINE_PATTERN` every `+`-repeated class excludes
the literal character that follows it (`)` is not a digit, `}` is not a
word character, `:` is excluded by `[^:]`), so the maximal run is the only
possible match. -/
def matchPlus (p : Char → Bool) (l : List Char) : Option (List Char × List Char) :=
  if (l.takeWhile p).isEmpty then none else some (l.takeWhile p, l.dropWhile p)

/-- Consume a regex atom `[p]{n}` (exactly `n` characters of class `p`). -/
def matchCount (p : Char → Bool) (n : Nat) (l : List Char) : Option (List Char × List Char) :=
  if (l.take n).length = n ∧ (l.take n).all p then some (l.take n, l.drop n) else none

/-- The trailing `.*$` of `LOG_LINE_PATTERN` (no `re.MULTILINE`): `.` does
not match `'\n'` and `$` matches at the end of the string or just before a
final `'\n'`, so the remainder must contain no `'\n'` except possibly as
its very last character; equivalently the part from its first `'\n'` on
has length at most 1. -/
def matchDotStarEnd (l : List Char) : Bool :=
  (l.dropWhile (fun c => !(c == '\n'))).length ≤ 1

/-- Left-to-right scan of
`LOG_LINE_PATTERN = "^\(lmf([0-9])+\)\[[0-9: -]{19}\] \{\w+\} [^:]+: .*$"`
(source line 14), returning the texts of the five variable regions
(digits of the format token, timestamp, level, tag region, trailing
text).  `re.match` anchors at the start, and the final `$` anchors the
end. -/
def scanLogLine (l : List Char) :
    Option (List Char × List Char × List Char × List Char × List Char) := do
  let r1 ← expectLit ['(', 'l', 'm', 'f'] l
  let (ds, r2) ← matchPlus Char.isDigit r1
  let r3 ← expectLit [')', '['] r2
  let (ts, r4) ← matchCount isTimestampChar 19 r3
  let r5 ← expectLit [']', ' ', '{'] r4
  let (w, r6) ← matchPlus isWordChar r5
  let r7 ← expectLit ['}', ' '] r6
  let (t, r8) ← matchPlus (fun c => !(c == ':')) r7
  let r9 ← expectLit [':', ' '] r8
  if matchDotStarEnd r9 then some (ds, ts, w, t, r9) else none

/-- `LOG_LINE_PATTERN.match(line)` viewed as a Boolean: the shape check of
`read_through_input_file` (source line 166). -/
def logLineMatch (l : List Char) : Bool := (scanLogLine l).isSome

/-- One iteration of the loop body of `read_through_input_file` (source
lines 164-178): a line yields an accepted entry exactly when it matches
the pattern and the parsed entry passes the filters. -/
def lineStep (logLevel : Option (List Char)) (tagFilter : Option (List (List Char)))
    (line : List Char) : Option LogLine :=
  if logLineMatch line then
    let logLine := parse_log_line line
    if matches_filters logLine logLevel tagFilter then some logLine else none
  else none

/-- `read_through_input_file` (source lines 159-179): the file is a list
of its lines; the accepted entries are appended in order and the two
global width counters (threaded explicitly as `st`) are updated once per
accepted entry. -/
def read_through_input_file (lines : List (List Char)) (logLevel : Option (List Char))
    (tagFilter : Option (List (List Char))) (st : WidthState) :
    List LogLine × WidthState :=
  lines.foldl
    (fun acc line =>
      match lineStep logLevel tagFilter line with
      | some logLine => (acc.1 ++ [logLine], observe acc.2 logLine)
      | none => acc)
    ([], st)

/-- The aggregation loop of `main` (source lines 267-270):
`logLines = list(logLines + read_through_input_file(path, ...))` for each
path in order, with the width globals starting at zero. -/
def processFiles (files : List (List (List Char))) (logLevel : Option (List Char))
    (tagFilter : Option (List (List Char))) : List LogLine × WidthState :=
  files.foldl
    (fun acc f =>
      let r := read_through_input_file f logLevel tagFilter acc.2
      (acc.1 ++ r.1, r.2))
    ([], ⟨0, 0⟩)

/-- Assembly of a line of the exact shape accepted by `LOG_LINE_PATTERN`:
`(lmf<ds>)[<ts>] {<w>} <t>: <m>`. -/
def mkLogLine (ds ts w t m : List Char) : List Char :=
  '(' :: 'l' :: 'm' :: 'f' ::
    (ds ++ ')' :: '[' ::
      (ts ++ ']' :: ' ' :: '{' ::
        (w ++ '}' :: ' ' :: (t ++ ':' :: ' ' :: m))))

/-- Modelled from the spec: the line shape claimed in §4.1 / claim C1,
word for word — `(`, literal `lmf`, one or more digits, `)`, `[`, exactly
19 timestamp characters, `]`, space, `{`, one or more word characters,
`}`, space, one or more non-colon characters, `:`, then any remaining
text to end of line.  (Note: no space is required after the colon.) -/
def specLineShape (l : List Char) : Prop :=
  ∃ ds ts w t m,
    ds ≠ [] ∧ (∀ c ∈ ds, Char.isDigit c = true) ∧
    ts.length = 19 ∧ (∀ c ∈ ts, isTimestampChar c = true) ∧
    w ≠ [] ∧ (∀ c ∈ w, isWordChar c = true) ∧
    t ≠ [] ∧ (∀ c ∈ t, c ≠ ':') ∧
    l = '(' :: 'l' :: 'm' :: 'f' ::
      (ds ++ ')' :: '[' ::
        (ts ++ ']' :: ' ' :: '{' ::
          (w ++ '}' :: ' ' :: (t ++ ':' :: m))))

/-- The corrected line shape: as `specLineShape`, but with the space the
pattern requires between the colon and the message text. -/
def amendedLineShape (l : List Char) : Prop :=
  ∃ ds ts w t m,
    ds ≠ [] ∧ (∀ c ∈ ds, Char.isDigit c = true) ∧
    ts.length = 19 ∧ (∀ c ∈ ts, isTimestampChar c = true) ∧
    w ≠ [] ∧ (∀ c ∈ w, isWordChar c = true) ∧
    t ≠ [] ∧ (∀ c ∈ t, c ≠ ':') ∧
    l = mkLogLine ds ts w t m

/-- The worked example line of spec §8. -/
def exLine : List Char := "(lmf1)[2020-01-01 00:00:00] {DEBUG} net: connected".data

/-! ## Generic list helper lemmas -/

theorem take_len_append (A B : List Char) : (A ++ B).take A.length = A := by
  induction A with
  | nil => rfl
  | cons a A ih => simp [ih]

theorem drop_len_append (A B : List Char) : (A ++ B).drop A.length = B := by
  induction A with
  | nil => rfl
  | cons a A ih => simp [ih]

theorem takeWhile_append_cons (p : Char → Bool) (L : List Char) (c : Char) (R : List Char)
    (hL : ∀ a ∈ L, p a = true) (hc : p c = false) :
    (L ++ c :: R).takeWhile p = L ∧ (L ++ c :: R).dropWhile p = c :: R := by
  induction L with
  | nil => simp [List.takeWhile, List.dropWhile, hc]
  | cons a L ih =>
    have ha : p a = true := hL a (by simp)
    have := ih (fun b hb => hL b (by simp [hb]))
    simp [List.takeWhile, List.dropWhile, ha, this.1, this.2]

theorem takeWhile_eq_self_of_all (p : Char → Bool) (L : List Char)
    (hL : ∀ a ∈ L, p a = true) : L.takeWhile p = L := by
  induction L with
  | nil => rfl
  | cons a L ih =>
    have ha : p a = true := hL a (by simp)
    simp [List.takeWhile, ha, ih (fun b hb => hL b (by simp [hb]))]

theorem dropWhile_eq_nil_of_all (p : Char → Bool) (L : List Char)
    (hL : ∀ a ∈ L, p a = true) : L.dropWhile p = [] := by
  induction L with
  | nil => rfl
  | cons a L ih =>
    have ha : p a = true := hL a (by simp)
    simp [List.dropWhile, ha, ih (fun b hb => hL b (by simp [hb]))]

theorem mem_takeWhile_pred (p : Char → Bool) (L : List Char) (a : Char)
    (h : a ∈ L.takeWhile p) : p a = true ∧ a ∈ L := by
  induction L with
  | nil => simp [List.takeWhile] at h
  | cons b L ih =>
    by_cases hb : p b = true
    · simp only [List.takeWhile, hb, List.mem_cons] at h
      rcases h with h | h
      · exact ⟨h ▸ hb, by simp [h]⟩
      · exact ⟨(ih h).1, by simp [(ih h).2]⟩
    · simp only [List.takeWhile, Bool.not_eq_true] at hb
      simp [List.takeWhile, hb] at h

theorem dropWhile_head_neg (p : Char → Bool) (L : List Char) (a : Char) (R : List Char)
    (h : L.dropWhile p = a :: R) : p a = false := by
  induction L with
  | nil => simp [List.dropWhile] at h
  | cons b L ih =>
    by_cases hb : p b = true
    · exact ih (by simpa [List.dropWhile, hb] using h)
    · simp only [Bool.not_eq_true] at hb
      simp only [List.dropWhile, hb] at h
      injection h with h1 _
      exact h1 ▸ hb

theorem mem_dropWhile_mem (p : Char → Bool) (L : List Char) (a : Char)
    (h : a ∈ L.dropWhile p) : a ∈ L := by
  induction L with
  | nil => simp [List.dropWhile] at h
  | cons b L ih =>
    by_cases hb : p b = true
    · exact List.mem_cons_of_mem _ (ih (by simpa [List.dropWhile, hb] using h))
    · simp only [Bool.not_eq_true] at hb
      simpa [List.dropWhile, hb] using h

theorem dropWhile_idem (p : Char → Bool) (L : List Char) :
    (L.dropWhile p).dropWhile p = L.dropWhile p := by
  induction L with
  | nil => rfl
  | cons b L ih =>
    by_cases hb : p b = true
    · simpa [List.dropWhile, hb] using ih
    · simp only [Bool.not_eq_true] at hb
      simp [List.dropWhile, hb]

/-! ## Locating delimiters in decomposed lines -/

theorem charIdx_append_self (c : Char) (A B : List Char) (h : c ∉ A) :
    charIdx c (A ++ c :: B) = some A.length := by
  induction A with
  | nil => simp [charIdx]
  | cons a A ih =>
    have ha : a ≠ c := fun hac => h (by simp [hac])
    simp [charIdx, ha, ih (fun hc => h (List.mem_cons_of_mem _ hc))]

theorem pyIdx_coe (n k : Nat) (h : k ≤ n) : pyIdx n (k : Int) = k := by
  unfold pyIdx
  rw [if_neg (by omega)]
  simp [Int.toNat_natCast, Nat.min_eq_left h]

theorem pyFind_split (c : Char) (line P A B : List Char) (s : Int)
    (hline : line = P ++ (A ++ c :: B)) (hs : s = (P.length : Int)) (h : c ∉ A) :
    pyFind line c s = ((P.length + A.length : Nat) : Int) := by
  have hlen : P.length ≤ line.length := by
    subst hline; simp [List.length_append]
  have hidx : pyIdx line.length s = P.length := by
    rw [hs]; exact pyIdx_coe _ _ hlen
  have hdrop : line.drop P.length = A ++ c :: B := by
    rw [hline]; exact drop_len_append _ _
  unfold pyFind
  rw [hidx, hdrop, charIdx_append_self c A B h]

theorem pySlice_seg (line P C S : List Char) (a b : Int)
    (hline : line = P ++ (C ++ S)) (ha : a = (P.length : Int))
    (hb : b = ((P.length + C.length : Nat) : Int)) :
    pySlice line a b = C := by
  have hlen : line.length = P.length + C.length + S.length := by
    subst hline; simp [List.length_append]; omega
  have hia : pyIdx line.length a = P.length := by
    rw [ha]; exact pyIdx_coe _ _ (by omega)
  have hib : pyIdx line.length b = P.length + C.length := by
    rw [hb]; exact pyIdx_coe _ _ (by omega)
  have htake : line.take (P.length + C.length) = P ++ C := by
    rw [hline, ← List.append_assoc, ← List.length_append]
    exact take_len_append _ _
  unfold pySlice
  rw [hia, hib, htake]
  exact drop_len_append _ _

theorem pySliceFrom_seg (line P S : List Char) (a : Int)
    (hline : line = P ++ S) (ha : a = (P.length : Int)) :
    pySliceFrom line a = S := by
  have hlen : P.length ≤ line.length := by
    subst hline; simp [List.length_append]
  have hia : pyIdx line.length a = P.length := by
    rw [ha]; exact pyIdx_coe _ _ hlen
  unfold pySliceFrom
  rw [hia, hline]
  exact drop_len_append _ _

/-! ## Properties of `pyStrip` -/

theorem pyStrip_cons_space (l : List Char) : pyStrip (' ' :: l) = pyStrip l := by
  simp [pyStrip, List.dropWhile, isPySpace]

theorem dropWhile_suffix_ex (p : Char → Bool) (l : List Char) :
    ∃ t, t ++ l.dropWhile p = l :=
  ⟨l.takeWhile p, List.takeWhile_append_dropWhile p l⟩

theorem dropWhile_eq_self_head (p : Char → Bool) (a : Char) (l : List Char)
    (ha : p a = false) : (a :: l).dropWhile p = a :: l := by
  simp [List.dropWhile, ha]

theorem dropWhile_length_le (p : Char → Bool) (l : List Char) :
    (l.dropWhile p).length ≤ l.length := by
  induction l with
  | nil => simp
  | cons a l ih =>
    by_cases ha : p a = true
    · simp only [List.dropWhile, ha]
      simp only [List.length_cons]
      omega
    · simp only [Bool.not_eq_true] at ha
      simp [List.dropWhile, ha]

theorem dropWhile_eq_self_of_eq_dropWhile (p : Char → Bool) (u : List Char)
    (h : ∃ v : List Char, u = List.dropWhile p v) : u.dropWhile p = u := by
  obtain ⟨v, rfl⟩ := h
  exact dropWhile_idem p v

/-- The front-stripped part of `pyStrip` is itself front-clean, because the
back strip only removes a suffix. -/
theorem pyStrip_front_clean (l : List Char) :
    (pyStrip l).dropWhile isPySpace = pyStrip l := by
  set u := l.dropWhile isPySpace with hu
  have hfront : u.dropWhile isPySpace = u := dropWhile_idem _ _
  -- pyStrip l is a prefix of u
  obtain ⟨t, ht⟩ := dropWhile_suffix_ex isPySpace u.reverse
  have hpre : pyStrip l ++ t.reverse = u := by
    have := congrArg List.reverse ht
    simpa [pyStrip, ← hu, List.reverse_append] using this
  rcases hps : pyStrip l with _ | ⟨a, r⟩
  · rfl
  · have hu2 : u = a :: (r ++ t.reverse) := by
      rw [← hpre, hps]; simp
    have ha : isPySpace a = false := by
      by_contra hcon
      rw [Bool.not_eq_false] at hcon
      rw [hu2] at hfront
      simp only [List.dropWhile, hcon] at hfront
      have := congrArg List.length hfront
      simp only [List.length_cons] at this
      have hle := dropWhile_length_le isPySpace (r ++ t.reverse)
      omega
    exact dropWhile_eq_self_head _ _ _ ha

theorem pyStrip_idem (l : List Char) : pyStrip (pyStrip l) = pyStrip l := by
  have hback : (pyStrip l).reverse.dropWhile isPySpace = (pyStrip l).reverse := by
    have hrev : (pyStrip l).reverse = ((l.dropWhile isPySpace).reverse).dropWhile isPySpace := by
      simp [pyStrip]
    rw [hrev]
    exact dropWhile_idem _ _
  calc pyStrip (pyStrip l)
      = (((pyStrip l).dropWhile isPySpace).reverse.dropWhile isPySpace).reverse := rfl
    _ = ((pyStrip l).reverse.dropWhile isPySpace).reverse := by rw [pyStrip_front_clean l]
    _ = (pyStrip l).reverse.reverse := by rw [hback]
    _ = pyStrip l := List.reverse_reverse _

theorem mem_pyStrip_mem (l : List Char) (a : Char) (h : a ∈ pyStrip l) : a ∈ l := by
  unfold pyStrip at h
  rw [List.mem_reverse] at h
  have h2 := mem_dropWhile_mem _ _ _ h
  rw [List.mem_reverse] at h2
  exact mem_dropWhile_mem _ _ _ h2

/-! ## Inversion and completeness of the line matcher -/

theorem expectLit_some (lit l r : List Char) :
    expectLit lit l = some r ↔ l = lit ++ r := by
  induction lit generalizing l with
  | nil => simp [expectLit]
  | cons c cs ih =>
    cases l with
    | nil => simp [expectLit, expectChar]
    | cons x l =>
      by_cases hx : x = c
      · subst hx
        simp [expectLit, expectChar, ih]
      · simp [expectLit, expectChar, hx, Option.bind]

theorem matchPlus_some (p : Char → Bool) (l run rest : List Char) :
    matchPlus p l = some (run, rest) ↔
      run = l.takeWhile p ∧ rest = l.dropWhile p ∧ run ≠ [] := by
  unfold matchPlus
  by_cases h : (l.takeWhile p).isEmpty
  · have h' : l.takeWhile p = [] := by rwa [List.isEmpty_iff] at h
    rw [if_pos h]
    constructor
    · intro hc; cases hc
    · rintro ⟨hrun, -, hne⟩; exact absurd (hrun.trans h') hne
  · rw [if_neg h]
    rw [List.isEmpty_iff] at h
    constructor
    · intro hc
      injection hc with hc
      injection hc with h1 h2
      exact ⟨h1.symm, h2.symm, h1.symm ▸ h⟩
    · rintro ⟨rfl, rfl, -⟩; rfl

theorem matchCount_some (p : Char → Bool) (n : Nat) (l run rest : List Char) :
    matchCount p n l = some (run, rest) ↔
      run = l.take n ∧ rest = l.drop n ∧ run.length = n ∧ run.all p = true := by
  unfold matchCount
  by_cases h : (l.take n).length = n ∧ (l.take n).all p
  · rw [if_pos h]
    constructor
    · intro hc
      injection hc with hc
      injection hc with h1 h2
      exact ⟨h1.symm, h2.symm, h1.symm ▸ h.1, h1.symm ▸ h.2⟩
    · rintro ⟨rfl, rfl, -, -⟩; rfl
  · rw [if_neg h]
    constructor
    · intro hc; cases hc
    · rintro ⟨rfl, rfl, hlen, hall⟩; exact absurd ⟨hlen, hall⟩ h

theorem scanLogLine_some (l ds ts w t m : List Char)
    (h : scanLogLine l = some (ds, ts, w, t, m)) :
    l = mkLogLine ds ts w t m ∧
      ds ≠ [] ∧ (∀ c ∈ ds, Char.isDigit c = true) ∧
      ts.length = 19 ∧ (∀ c ∈ ts, isTimestampChar c = true) ∧
      w ≠ [] ∧ (∀ c ∈ w, isWordChar c = true) ∧
      t ≠ [] ∧ (∀ c ∈ t, (c == ':') = false) ∧
      matchDotStarEnd m = true := by
  simp only [scanLogLine, bind, Option.bind_eq_some] at h
  obtain ⟨r1, h1, h⟩ := h
  obtain ⟨⟨ds', r2⟩, h2, h⟩ := h
  obtain ⟨r3, h3, h⟩ := h
  obtain ⟨⟨ts', r4⟩, h4, h⟩ := h
  obtain ⟨r5, h5, h⟩ := h
  obtain ⟨⟨w', r6⟩, h6, h⟩ := h
  obtain ⟨r7, h7, h⟩ := h
  obtain ⟨⟨t', r8⟩, h8, h⟩ := h
  obtain ⟨r9, h9, h⟩ := h
  by_cases hend : matchDotStarEnd r9 = true
  · rw [if_pos hend] at h
    simp only [Option.some.injEq, Prod.mk.injEq] at h
    obtain ⟨rfl, rfl, rfl, rfl, rfl⟩ := h
    rw [expectLit_some] at h1 h3 h5 h7 h9
    rw [matchPlus_some] at h2 h6 h8
    rw [matchCount_some] at h4
    obtain ⟨hds, hr2, hdsne⟩ := h2
    obtain ⟨hts, hr4, htslen, htsall⟩ := h4
    obtain ⟨hw, hr6, hwne⟩ := h6
    obtain ⟨ht, hr8, htne⟩ := h8
    have h3' : r2 = [')', '['] ++ r3 := h3
    have h5' : r4 = [']', ' ', '{'] ++ r5 := h5
    have h7' : r6 = ['}', ' '] ++ r7 := h7
    have h9' : r8 = [':', ' '] ++ r9 := h9
    have hr1 : r1 = ds' ++ r2 := by
      rw [hds, hr2]; exact (List.takeWhile_append_dropWhile _ _).symm
    have hr3 : r3 = ts' ++ r4 := by
      rw [hts, hr4]; exact (List.take_append_drop _ _).symm
    have hr5 : r5 = w' ++ r6 := by
      rw [hw, hr6]; exact (List.takeWhile_append_dropWhile _ _).symm
    have hr7 : r7 = t' ++ r8 := by
      rw [ht, hr8]; exact (List.takeWhile_append_dropWhile _ _).symm
    refine ⟨?_, hdsne, ?_, htslen, ?_, hwne, ?_, htne, ?_, hend⟩
    · rw [h1, hr1, h3', hr3, h5', hr5, h7', hr7, h9']
      simp [mkLogLine]
    · intro c hc
      exact (mem_takeWhile_pred _ _ _ (hds ▸ hc)).1
    · intro c hc
      rw [List.all_eq_true] at htsall
      exact htsall c (hts ▸ hc)
    · intro c hc
      exact (mem_takeWhile_pred _ _ _ (hw ▸ hc)).1
    · intro c hc
      have hb := (mem_takeWhile_pred _ _ _ (ht ▸ hc)).1
      simpa using hb
  · rw [if_neg hend] at h
    cases h

theorem scanLogLine_complete (ds ts w t m : List Char)
    (hdsne : ds ≠ []) (hdsall : ∀ c ∈ ds, Char.isDigit c = true)
    (htslen : ts.length = 19) (htsall : ∀ c ∈ ts, isTimestampChar c = true)
    (hwne : w ≠ []) (hwall : ∀ c ∈ w, isWordChar c = true)
    (htne : t ≠ []) (htall : ∀ c ∈ t, (c == ':') = false)
    (hend : matchDotStarEnd m = true) :
    scanLogLine (mkLogLine ds ts w t m) = some (ds, ts, w, t, m) := by
  have step1 : expectLit ['(', 'l', 'm', 'f'] (mkLogLine ds ts w t m)
      = some (ds ++ ')' :: '[' :: (ts ++ ']' :: ' ' :: '{' ::
          (w ++ '}' :: ' ' :: (t ++ ':' :: ' ' :: m)))) := by
    rw [expectLit_some]; simp [mkLogLine]
  have hds2 := takeWhile_append_cons Char.isDigit ds ')'
    ('[' :: (ts ++ ']' :: ' ' :: '{' :: (w ++ '}' :: ' ' :: (t ++ ':' :: ' ' :: m))))
    hdsall (by decide)
  have step2 : matchPlus Char.isDigit
      (ds ++ ')' :: '[' :: (ts ++ ']' :: ' ' :: '{' :: (w ++ '}' :: ' ' :: (t ++ ':' :: ' ' :: m))))
      = some (ds, ')' :: '[' :: (ts ++ ']' :: ' ' :: '{' :: (w ++ '}' :: ' ' :: (t ++ ':' :: ' ' :: m)))) := by
    rw [matchPlus_some]
    exact ⟨hds2.1.symm, hds2.2.symm, hdsne⟩
  have step3 : expectLit [')', '[']
      (')' :: '[' :: (ts ++ ']' :: ' ' :: '{' :: (w ++ '}' :: ' ' :: (t ++ ':' :: ' ' :: m))))
      = some (ts ++ ']' :: ' ' :: '{' :: (w ++ '}' :: ' ' :: (t ++ ':' :: ' ' :: m))) := by
    rw [expectLit_some]; rfl
  have htake : (ts ++ ']' :: ' ' :: '{' :: (w ++ '}' :: ' ' :: (t ++ ':' :: ' ' :: m))).take 19 = ts := by
    rw [← htslen]; exact take_len_append _ _
  have hdrop : (ts ++ ']' :: ' ' :: '{' :: (w ++ '}' :: ' ' :: (t ++ ':' :: ' ' :: m))).drop 19
      = ']' :: ' ' :: '{' :: (w ++ '}' :: ' ' :: (t ++ ':' :: ' ' :: m)) := by
    rw [← htslen]; exact drop_len_append _ _
  have step4 : matchCount isTimestampChar 19
      (ts ++ ']' :: ' ' :: '{' :: (w ++ '}' :: ' ' :: (t ++ ':' :: ' ' :: m)))
      = some (ts, ']' :: ' ' :: '{' :: (w ++ '}' :: ' ' :: (t ++ ':' :: ' ' :: m))) := by
    rw [matchCount_some]
    refine ⟨htake.symm, hdrop.symm, htslen, ?_⟩
    rw [List.all_eq_true]
    exact htsall
  have step5 : expectLit [']', ' ', '{']
      (']' :: ' ' :: '{' :: (w ++ '}' :: ' ' :: (t ++ ':' :: ' ' :: m)))
      = some (w ++ '}' :: ' ' :: (t ++ ':' :: ' ' :: m)) := by
    rw [expectLit_some]; rfl
  have hw2 := takeWhile_append_cons isWordChar w '}' (' ' :: (t ++ ':' :: ' ' :: m))
    hwall (by decide)
  have step6 : matchPlus isWordChar (w ++ '}' :: ' ' :: (t ++ ':' :: ' ' :: m))
      = some (w, '}' :: ' ' :: (t ++ ':' :: ' ' :: m)) := by
    rw [matchPlus_some]
    exact ⟨hw2.1.symm, hw2.2.symm, hwne⟩
  have step7 : expectLit ['}', ' '] ('}' :: ' ' :: (t ++ ':' :: ' ' :: m))
      = some (t ++ ':' :: ' ' :: m) := by
    rw [expectLit_some]; rfl
  have ht2 := takeWhile_append_cons (fun c => !(c == ':')) t ':' (' ' :: m)
    (fun a ha => by simpa using htall a ha) (by decide)
  have step8 : matchPlus (fun c => !(c == ':')) (t ++ ':' :: ' ' :: m)
      = some (t, ':' :: ' ' :: m) := by
    rw [matchPlus_some]
    exact ⟨ht2.1.symm, ht2.2.symm, htne⟩
  have step9 : expectLit [':', ' '] (':' :: ' ' :: m) = some m := by
    rw [expectLit_some]; rfl
  simp only [scanLogLine, bind, step1, Option.some_bind, step2, step3, step4,
    step5, step6, step7, step8, step9, hend]
  rfl

/-- `logLineMatch` holds exactly on the decomposable lines. -/
theorem logLineMatch_iff (l : List Char) :
    logLineMatch l = true ↔
      ∃ ds ts w t m,
        ds ≠ [] ∧ (∀ c ∈ ds, Char.isDigit c = true) ∧
        ts.length = 19 ∧ (∀ c ∈ ts, isTimestampChar c = true) ∧
        w ≠ [] ∧ (∀ c ∈ w, isWordChar c = true) ∧
        t ≠ [] ∧ (∀ c ∈ t, (c == ':') = false) ∧
        matchDotStarEnd m = true ∧
        l = mkLogLine ds ts w t m := by
  constructor
  · intro h
    rw [logLineMatch, Option.isSome_iff_exists] at h
    obtain ⟨⟨ds, ts, w, t, m⟩, hscan⟩ := h
    obtain ⟨hshape, h2, h3, h4, h5, h6, h7, h8, h9, h10⟩ := scanLogLine_some l ds ts w t m hscan
    exact ⟨ds, ts, w, t, m, h2, h3, h4, h5, h6, h7, h8, h9, h10, hshape⟩
  · rintro ⟨ds, ts, w, t, m, h2, h3, h4, h5, h6, h7, h8, h9, h10, rfl⟩
    rw [logLineMatch, scanLogLine_complete ds ts w t m h2 h3 h4 h5 h6 h7 h8 h9 h10]
    rfl

/-! ## `parse_log_line` on a line of the accepted shape -/

theorem parse_mkLogLine (ds ts w t m : List Char)
    (h1 : ')' ∉ ds) (h2 : '[' ∉ ds) (h3 : ']' ∉ ts) (h4 : '}' ∉ w) (h5 : ':' ∉ t) :
    parse_log_line (mkLogLine ds ts w t m) =
      ⟨mkLogLine ds ts w t m, 'l' :: 'm' :: 'f' :: ds, ts, w, pyStrip t, pyStrip m⟩ := by
  have m2 : ')' ∉ ('l' :: 'm' :: 'f' :: ds) := by
    simp only [List.mem_cons]
    push_neg
    exact ⟨by decide, by decide, by decide, h1⟩
  have m3 : '[' ∉ ('(' :: 'l' :: 'm' :: 'f' :: (ds ++ [')'])) := by
    simp only [List.mem_cons, List.mem_append, List.mem_singleton]
    push_neg
    exact ⟨by decide, by decide, by decide, by decide, h2, by decide⟩
  have m7 : ':' ∉ (' ' :: t) := by
    simp only [List.mem_cons]
    push_neg
    exact ⟨by decide, h5⟩
  have f1 : pyFind (mkLogLine ds ts w t m) '(' 0 = (0 : Int) := by
    have h := pyFind_split '(' (mkLogLine ds ts w t m) [] []
      ('l' :: 'm' :: 'f' :: (ds ++ ')' :: '[' ::
        (ts ++ ']' :: ' ' :: '{' :: (w ++ '}' :: ' ' :: (t ++ ':' :: ' ' :: m)))))
      0 (by simp [mkLogLine]) (by simp) (by simp)
    simpa using h
  have f2 : pyFind (mkLogLine ds ts w t m) ')' ((0 : Int) + 1)
      = ((4 + ds.length : Nat) : Int) := by
    have h := pyFind_split ')' (mkLogLine ds ts w t m) ['('] ('l' :: 'm' :: 'f' :: ds)
      ('[' :: (ts ++ ']' :: ' ' :: '{' :: (w ++ '}' :: ' ' :: (t ++ ':' :: ' ' :: m))))
      ((0 : Int) + 1) (by simp [mkLogLine]) (by simp) m2
    rw [h]
    push_cast [List.length_cons, List.length_append, List.length_nil, List.length_singleton]
    omega
  have s1 : pySlice (mkLogLine ds ts w t m) ((0 : Int) + 1) ((4 + ds.length : Nat) : Int)
      = 'l' :: 'm' :: 'f' :: ds := by
    refine pySlice_seg _ ['('] ('l' :: 'm' :: 'f' :: ds)
      (')' :: '[' :: (ts ++ ']' :: ' ' :: '{' :: (w ++ '}' :: ' ' :: (t ++ ':' :: ' ' :: m))))
      _ _ (by simp [mkLogLine]) (by simp) ?_
    push_cast [List.length_cons, List.length_append, List.length_nil, List.length_singleton]
    omega
  have f3 : pyFind (mkLogLine ds ts w t m) '[' 0 = ((5 + ds.length : Nat) : Int) := by
    have h := pyFind_split '[' (mkLogLine ds ts w t m) []
      ('(' :: 'l' :: 'm' :: 'f' :: (ds ++ [')']))
      (ts ++ ']' :: ' ' :: '{' :: (w ++ '}' :: ' ' :: (t ++ ':' :: ' ' :: m)))
      0 (by simp [mkLogLine]) (by simp) m3
    rw [h]
    push_cast [List.length_cons, List.length_append, List.length_nil, List.length_singleton]
    omega
  have f4 : pyFind (mkLogLine ds ts w t m) ']' (((5 + ds.length : Nat) : Int) + 1)
      = ((6 + ds.length + ts.length : Nat) : Int) := by
    have h := pyFind_split ']' (mkLogLine ds ts w t m)
      ('(' :: 'l' :: 'm' :: 'f' :: (ds ++ [')', '['])) ts
      (' ' :: '{' :: (w ++ '}' :: ' ' :: (t ++ ':' :: ' ' :: m)))
      (((5 + ds.length : Nat) : Int) + 1) (by simp [mkLogLine]) ?_ h3
    · rw [h]
      push_cast [List.length_cons, List.length_append, List.length_nil, List.length_singleton]
      omega
    · push_cast [List.length_cons, List.length_append, List.length_nil, List.length_singleton]
      omega
  have s2 : pySlice (mkLogLine ds ts w t m) (((5 + ds.length : Nat) : Int) + 1)
      ((6 + ds.length + ts.length : Nat) : Int) = ts := by
    refine pySlice_seg _ ('(' :: 'l' :: 'm' :: 'f' :: (ds ++ [')', '['])) ts
      (']' :: ' ' :: '{' :: (w ++ '}' :: ' ' :: (t ++ ':' :: ' ' :: m)))
      _ _ (by simp [mkLogLine]) ?_ ?_ <;>
    · push_cast [List.length_cons, List.length_append, List.length_nil, List.length_singleton]
      omega
  have f5 : pyFind (mkLogLine ds ts w t m) '{' ((6 + ds.length + ts.length : Nat) : Int)
      = ((8 + ds.length + ts.length : Nat) : Int) := by
    have h := pyFind_split '{' (mkLogLine ds ts w t m)
      ('(' :: 'l' :: 'm' :: 'f' :: (ds ++ [')', '['] ++ ts)) [']', ' ']
      (w ++ '}' :: ' ' :: (t ++ ':' :: ' ' :: m))
      ((6 + ds.length + ts.length : Nat) : Int) (by simp [mkLogLine]) ?_ (by decide)
    · rw [h]
      push_cast [List.length_cons, List.length_append, List.length_nil, List.length_singleton]
      omega
    · push_cast [List.length_cons, List.length_append, List.length_nil, List.length_singleton]
      omega
  have f6 : pyFind (mkLogLine ds ts w t m) '}' (((8 + ds.length + ts.length : Nat) : Int) + 1)
      = ((9 + ds.length + ts.length + w.length : Nat) : Int) := by
    have h := pyFind_split '}' (mkLogLine ds ts w t m)
      ('(' :: 'l' :: 'm' :: 'f' :: (ds ++ [')', '['] ++ ts ++ [']', ' ', '{'])) w
      (' ' :: (t ++ ':' :: ' ' :: m))
      (((8 + ds.length + ts.length : Nat) : Int) + 1) (by simp [mkLogLine]) ?_ h4
    · rw [h]
      push_cast [List.length_cons, List.length_append, List.length_nil, List.length_singleton]
      omega
    · push_cast [List.length_cons, List.length_append, List.length_nil, List.length_singleton]
      omega
  have s3 : pySlice (mkLogLine ds ts w t m) (((8 + ds.length + ts.length : Nat) : Int) + 1)
      ((9 + ds.length + ts.length + w.length : Nat) : Int) = w := by
    refine pySlice_seg _
      ('(' :: 'l' :: 'm' :: 'f' :: (ds ++ [')', '['] ++ ts ++ [']', ' ', '{'])) w
      ('}' :: ' ' :: (t ++ ':' :: ' ' :: m))
      _ _ (by simp [mkLogLine]) ?_ ?_ <;>
    · push_cast [List.length_cons, List.length_append, List.length_nil, List.length_singleton]
      omega
  have f7 : pyFind (mkLogLine ds ts w t m) ':'
      (((9 + ds.length + ts.length + w.length : Nat) : Int) + 1)
      = ((11 + ds.length + ts.length + w.length + t.length : Nat) : Int) := by
    have h := pyFind_split ':' (mkLogLine ds ts w t m)
      ('(' :: 'l' :: 'm' :: 'f' :: (ds ++ [')', '['] ++ ts ++ [']', ' ', '{'] ++ w ++ ['}']))
      (' ' :: t) (' ' :: m)
      (((9 + ds.length + ts.length + w.length : Nat) : Int) + 1) (by simp [mkLogLine]) ?_ m7
    · rw [h]
      push_cast [List.length_cons, List.length_append, List.length_nil, List.length_singleton]
      omega
    · push_cast [List.length_cons, List.length_append, List.length_nil, List.length_singleton]
      omega
  have s4 : pySlice (mkLogLine ds ts w t m)
      (((9 + ds.length + ts.length + w.length : Nat) : Int) + 1)
      ((11 + ds.length + ts.length + w.length + t.length : Nat) : Int) = ' ' :: t := by
    refine pySlice_seg _
      ('(' :: 'l' :: 'm' :: 'f' :: (ds ++ [')', '['] ++ ts ++ [']', ' ', '{'] ++ w ++ ['}']))
      (' ' :: t) (':' :: ' ' :: m)
      _ _ (by simp [mkLogLine]) ?_ ?_ <;>
    · push_cast [List.length_cons, List.length_append, List.length_nil, List.length_singleton]
      omega
  have s5 : pySliceFrom (mkLogLine ds ts w t m)
      (((11 + ds.length + ts.length + w.length + t.length : Nat) : Int) + 1) = ' ' :: m := by
    refine pySliceFrom_seg _
      ('(' :: 'l' :: 'm' :: 'f' ::
        (ds ++ [')', '['] ++ ts ++ [']', ' ', '{'] ++ w ++ ['}', ' '] ++ t ++ [':']))
      (' ' :: m) _ (by simp [mkLogLine]) ?_
    push_cast [List.length_cons, List.length_append, List.length_nil, List.length_singleton]
    omega
  simp only [parse_log_line]
  rw [f1, f2, s1, f3, f4, s2, f5, f6, s3, f7, s4, s5, pyStrip_cons_space, pyStrip_cons_space]

/-! ## Aggregation: filterMap characterisation and width-fold -/

theorem read_through_aux (ll : Option (List Char)) (tf : Option (List (List Char)))
    (lines : List (List Char)) (acc : List LogLine) (st : WidthState) :
    lines.foldl
      (fun acc line =>
        match lineStep ll tf line with
        | some logLine => (acc.1 ++ [logLine], observe acc.2 logLine)
        | none => acc)
      (acc, st)
    = (acc ++ lines.filterMap (lineStep ll tf),
        (lines.filterMap (lineStep ll tf)).foldl observe st) := by
  induction lines generalizing acc st with
  | nil => simp
  | cons l ls ih =>
    cases h : lineStep ll tf l with
    | none => simp [List.foldl_cons, h, ih, List.filterMap_cons]
    | some e => simp [List.foldl_cons, h, ih, List.filterMap_cons]

theorem read_through_spec (lines : List (List Char)) (ll : Option (List Char))
    (tf : Option (List (List Char))) (st : WidthState) :
    read_through_input_file lines ll tf st
      = (lines.filterMap (lineStep ll tf),
          (lines.filterMap (lineStep ll tf)).foldl observe st) := by
  unfold read_through_input_file
  simpa using read_through_aux ll tf lines [] st

theorem processFiles_aux (ll : Option (List Char)) (tf : Option (List (List Char)))
    (files : List (List (List Char))) (acc : List LogLine) (st : WidthState) :
    files.foldl
      (fun acc f =>
        let r := read_through_input_file f ll tf acc.2
        (acc.1 ++ r.1, r.2))
      (acc, st)
    = (acc ++ (files.flatten).filterMap (lineStep ll tf),
        ((files.flatten).filterMap (lineStep ll tf)).foldl observe st) := by
  induction files generalizing acc st with
  | nil => simp
  | cons f fs ih =>
    simp only [List.foldl_cons]
    rw [read_through_spec f ll tf st, ih]
    simp [List.flatten_cons, List.filterMap_append, List.foldl_append, List.append_assoc]

theorem processFiles_spec (files : List (List (List Char))) (ll : Option (List Char))
    (tf : Option (List (List Char))) :
    processFiles files ll tf
      = ((files.flatten).filterMap (lineStep ll tf),
          ((files.flatten).filterMap (lineStep ll tf)).foldl observe ⟨0, 0⟩) := by
  unfold processFiles
  simpa using processFiles_aux ll tf files [] ⟨0, 0⟩

theorem observe_eq_max (st : WidthState) (e : LogLine) :
    observe st e = ⟨max st.logLevelWidth e.logLevel.length, max st.tagWidth e.tag.length⟩ := by
  unfold observe
  congr 1
  · split <;> omega
  · split <;> omega

theorem foldl_observe_spec (es : List LogLine) (st : WidthState) :
    es.foldl observe st
      = ⟨max st.logLevelWidth ((es.map (fun e => e.logLevel.length)).foldr max 0),
         max st.tagWidth ((es.map (fun e => e.tag.length)).foldr max 0)⟩ := by
  induction es generalizing st with
  | nil => simp
  | cons e es ih =>
    simp only [List.foldl_cons, ih, observe_eq_max, List.map_cons, List.foldr_cons]
    congr 1 <;> omega

/-! ## Small helpers for the claim theorems -/

theorem ljust_zero (s : List Char) : ljust s 0 = s := by
  simp [ljust]

theorem not_mem_of_all_class (p : Char → Bool) (l : List Char) (c : Char)
    (hall : ∀ a ∈ l, p a = true) (hc : p c = false) : c ∉ l := by
  intro hm
  have h := hall c hm
  rw [h] at hc
  exact Bool.noConfusion hc

theorem not_mem_of_all_bne (l : List Char) (c : Char)
    (h : ∀ a ∈ l, (a == c) = false) : c ∉ l := by
  intro hm
  have := h c hm
  simp at this

theorem no_colon_not_matched (l : List Char) (h : ':' ∉ l) : logLineMatch l = false := by
  by_contra hc
  rw [Bool.not_eq_false] at hc
  obtain ⟨ds, ts, w, t, m, -, -, -, -, -, -, -, -, -, hl⟩ := (logLineMatch_iff l).mp hc
  exact h (hl ▸ (by simp [mkLogLine]))

/-! ## Characterising the `.csv` mode condition -/

theorem takeWhile_append_all (p : Char → Bool) (A B : List Char)
    (hA : ∀ a ∈ A, p a = true) :
    (A ++ B).takeWhile p = A ++ B.takeWhile p ∧ (A ++ B).dropWhile p = B.dropWhile p := by
  induction A with
  | nil => simp
  | cons a A ih =>
    have ha : p a = true := hA a (by simp)
    have := ih (fun b hb => hA b (by simp [hb]))
    simp [List.takeWhile_cons, List.dropWhile_cons, ha, this.1, this.2]

/-- The output-name condition the script tests before choosing CSV mode. -/
theorem csvExt_iff (name : List Char) :
    (splitextExt name).drop 1 = "csv".data ↔
      ∃ u, name = u ++ ".csv".data ∧
        ∃ c ∈ u.reverse.takeWhile (fun x => !(x == '/')), c ≠ '.' := by
  constructor
  · intro h
    rcases hdrop : (name.reverse.takeWhile (fun c => !(c == '/'))).dropWhile
        (fun c => !(c == '.')) with _ | ⟨d, preR⟩
    · rw [splitextExt, hdrop] at h
      simp at h
    · have hd : d = '.' := by
        have := dropWhile_head_neg _ _ _ _ hdrop
        simpa using this
      subst hd
      rw [splitextExt, hdrop] at h
      dsimp only at h
      by_cases hany : preR.any (fun c => !(c == '.')) = true
      · rw [if_pos hany] at h
        simp only [List.drop_succ_cons, List.drop_zero] at h
        -- h : sufR.reverse = "csv".data, hence sufR = ['v','s','c']
        have hsuf : (name.reverse.takeWhile (fun c => !(c == '/'))).takeWhile
            (fun c => !(c == '.')) = ['v', 's', 'c'] := by
          have := congrArg List.reverse h
          simpa using this
        have hrb : name.reverse.takeWhile (fun c => !(c == '/'))
            = ['v', 's', 'c'] ++ '.' :: preR := by
          rw [← hsuf, ← hdrop]
          exact (List.takeWhile_append_dropWhile _ _).symm
        have hsplit : name.reverse
            = (['v', 's', 'c'] ++ '.' :: preR)
              ++ name.reverse.dropWhile (fun c => !(c == '/')) := by
          rw [← hrb]
          exact (List.takeWhile_append_dropWhile _ _).symm
        refine ⟨(preR ++ name.reverse.dropWhile (fun c => !(c == '/'))).reverse, ?_, ?_⟩
        · have hn := congrArg List.reverse hsplit
          simp only [List.reverse_reverse] at hn
          conv_lhs => rw [hn]
          simp
        · rw [List.reverse_reverse]
          have hmem : ∀ a ∈ preR, (fun x => !(x == '/')) a = true := by
            intro a ha
            have h1 : a ∈ ('.' :: preR) := by simp [ha]
            have h2 : a ∈ name.reverse.takeWhile (fun c => !(c == '/')) := by
              rw [hrb]; simp [ha]
            exact (mem_takeWhile_pred _ _ _ h2).1
          obtain ⟨c, hc, hcd⟩ := List.any_eq_true.mp hany
          rcases hrest : name.reverse.dropWhile (fun c => !(c == '/')) with _ | ⟨x, rest⟩
          · refine ⟨c, ?_, by simpa using hcd⟩
            rw [List.append_nil, takeWhile_eq_self_of_all _ _ hmem]
            exact hc
          · have hx : (fun c => !(c == '/')) x = false := dropWhile_head_neg _ _ _ _ hrest
            refine ⟨c, ?_, by simpa using hcd⟩
            rw [(takeWhile_append_cons _ _ _ _ hmem hx).1]
            exact hc
      · rw [if_neg hany] at h
        simp at h
  · rintro ⟨u, rfl, c, hc, hcd⟩
    have hA : ∀ a ∈ ['v', 's', 'c', '.'], (fun x => !(x == '/')) a = true := by decide
    have hrev : (u ++ ".csv".data).reverse = ['v', 's', 'c', '.'] ++ u.reverse := by
      simp
    have hrb : (u ++ ".csv".data).reverse.takeWhile (fun x => !(x == '/'))
        = ['v', 's', 'c', '.'] ++ u.reverse.takeWhile (fun x => !(x == '/')) := by
      rw [hrev]
      exact (takeWhile_append_all _ _ _ hA).1
    have hvsc : ∀ a ∈ ['v', 's', 'c'], (fun x => !(x == '.')) a = true := by decide
    have hsplit := takeWhile_append_cons (fun x => !(x == '.')) ['v', 's', 'c'] '.'
      (u.reverse.takeWhile (fun x => !(x == '/'))) hvsc (by decide)
    have hany : (u.reverse.takeWhile (fun x => !(x == '/'))).any
        (fun x => !(x == '.')) = true := by
      exact List.any_eq_true.mpr ⟨c, hc, by simpa using hcd⟩
    rw [splitextExt, hrb]
    have h1 : (['v', 's', 'c', '.'] ++ u.reverse.takeWhile (fun x => !(x == '/'))) =
        (['v', 's', 'c'] ++ '.' :: (u.reverse.takeWhile (fun x => !(x == '/')))) := by
      simp
    rw [h1, hsplit.1, hsplit.2]
    dsimp only
    rw [if_pos hany]
    rfl

/-! ## The claims -/

/-- Claim C1, counterexample: the claimed shape does not require a space
after the tag/message colon, but `LOG_LINE_PATTERN` contains the literal
`": "`.  The line `(lmf1)[0000-00-00 00:00:00] {D} t:` has the claimed
shape (with empty remaining text) yet the Matcher rejects it. -/
theorem C1_counterexample :
    specLineShape "(lmf1)[0000-00-00 00:00:00] {D} t:".data ∧
    logLineMatch "(lmf1)[0000-00-00 00:00:00] {D} t:".data = false := by
  constructor
  · exact ⟨['1'], "0000-00-00 00:00:00".data, ['D'], ['t'], [],
      by decide, by decide, by decide, by decide, by decide, by decide,
      by decide, by decide, by decide⟩
  · decide

/-- Claim C1 (amended): on physical lines (no interior newline) the Matcher
accepts exactly the lines of the claimed shape *with a space required
between the colon and the message text*; and a line with no colon at all is
rejected and contributes no entry and no width update, without any error. -/
theorem C1_matcher_amended :
    (∀ l : List Char, '\n' ∉ l → (logLineMatch l = true ↔ amendedLineShape l)) ∧
    (∀ (ll : Option (List Char)) (tf : Option (List (List Char)))
        (st : WidthState) (l : List Char), ':' ∉ l →
      logLineMatch l = false ∧
        read_through_input_file [l] ll tf st = ([], st)) := by
  constructor
  · intro l hnl
    rw [logLineMatch_iff]
    constructor
    · rintro ⟨ds, ts, w, t, m, hdsne, hdsall, htslen, htsall, hwne, hwall,
        htne, htall, hend, rfl⟩
      exact ⟨ds, ts, w, t, m, hdsne, hdsall, htslen, htsall, hwne, hwall,
        htne, fun c hc => by simpa using htall c hc, rfl⟩
    · rintro ⟨ds, ts, w, t, m, hdsne, hdsall, htslen, htsall, hwne, hwall,
        htne, htall, rfl⟩
      refine ⟨ds, ts, w, t, m, hdsne, hdsall, htslen, htsall, hwne, hwall,
        htne, fun c hc => by simpa using htall c hc, ?_, rfl⟩
      have hnm : ∀ c ∈ m, (fun x => !(x == '\n')) c = true := by
        intro c hc
        have : c ≠ '\n' := by
          rintro rfl
          exact hnl (by simp [mkLogLine, hc])
        simpa using this
      rw [matchDotStarEnd, dropWhile_eq_nil_of_all _ _ hnm]
      decide
  · intro ll tf st l hcol
    have hm := no_colon_not_matched l hcol
    have hstep : lineStep ll tf l = none := by simp [lineStep, hm]
    exact ⟨hm, by simp [read_through_input_file, hstep]⟩

theorem C1_matcher_amended_witness :
    amendedLineShape exLine ∧
    (logLineMatch "abc".data = false ∧
      read_through_input_file ["abc".data] none none ⟨0, 0⟩ = ([], ⟨0, 0⟩)) :=
  ⟨(C1_matcher_amended.1 exLine (by decide)).mp (by decide),
   C1_matcher_amended.2 none none ⟨0, 0⟩ "abc".data (by decide)⟩

/-- Claim C2: every line accepted by the Matcher decomposes as
`(lmf<ds>)[<ts>] {<w>} <t>: <m>`, and on it the Parser extracts exactly
`format = lmf<ds>` (between the first `(` and its `)`), `timestamp = ts`
(between the first `[` and its `]`), `level = w` (between the `{` found
from the timestamp's `]` and its `}`), `tag = strip t` (the span between
the level's `}` and the next `:`, which is one space followed by `t`,
trimmed), and `message = strip m` (the rest after that colon, trimmed).
The parse is total, so no error path is reachable. -/
theorem C2_parser_fields (l : List Char) (h : logLineMatch l = true) :
    ∃ ds ts w t m,
      l = mkLogLine ds ts w t m ∧
      parse_log_line l =
        ⟨l, 'l' :: 'm' :: 'f' :: ds, ts, w, pyStrip t, pyStrip m⟩ := by
  obtain ⟨ds, ts, w, t, m, hdsne, hdsall, htslen, htsall, hwne, hwall,
    htne, htall, hend, rfl⟩ := (logLineMatch_iff l).mp h
  refine ⟨ds, ts, w, t, m, rfl, ?_⟩
  exact parse_mkLogLine ds ts w t m
    (not_mem_of_all_class _ _ _ hdsall (by decide))
    (not_mem_of_all_class _ _ _ hdsall (by decide))
    (not_mem_of_all_class _ _ _ htsall (by decide))
    (not_mem_of_all_class _ _ _ hwall (by decide))
    (not_mem_of_all_bne _ _ htall)

theorem C2_parser_fields_witness :
    ∃ ds ts w t m,
      exLine = mkLogLine ds ts w t m ∧
      parse_log_line exLine =
        ⟨exLine, 'l' :: 'm' :: 'f' :: ds, ts, w, pyStrip t, pyStrip m⟩ :=
  C2_parser_fields exLine (by decide)

/-- Acceptance characterisation of the Filter Evaluator. -/
theorem matches_filters_true_iff (e : LogLine) (ll : Option (List Char))
    (tf : Option (List (List Char))) :
    matches_filters e ll tf = true ↔
      (∀ lv, ll = some lv → e.logLevel = lv) ∧
      (∀ tags, tf = some tags → e.tag ∈ tags) := by
  cases ll with
  | none =>
    cases tf with
    | none => simp [matches_filters]
    | some tags => by_cases h : e.tag ∈ tags <;> simp [matches_filters, h]
  | some lv =>
    cases tf with
    | none =>
      by_cases h : e.logLevel = lv
      · simp [matches_filters, h]
      · have h' : ¬lv = e.logLevel := fun hh => h hh.symm
        simp [matches_filters, h, h']
    | some tags =>
      by_cases h : e.logLevel = lv
      · by_cases h2 : e.tag ∈ tags <;> simp [matches_filters, h, h2]
      · have h' : ¬lv = e.logLevel := fun hh => h hh.symm
        by_cases h2 : e.tag ∈ tags <;> simp [matches_filters, h, h', h2]

/-- Claim C3: the Filter Evaluator rejects an entry iff the level filter is
set to a different string than the entry's level, or the tag filter is set
and does not contain the entry's tag; both checks are optional, combined by
AND, and use exact case-sensitive equality.  Filtering levels
`D`, `I`, `D` by level filter `D` keeps exactly the two `D` entries in
order. -/
theorem C3_filter :
    (∀ (e : LogLine) (ll : Option (List Char)) (tf : Option (List (List Char))),
      matches_filters e ll tf = false ↔
        ((∃ lv, ll = some lv ∧ e.logLevel ≠ lv) ∨
         (∃ tags, tf = some tags ∧ e.tag ∉ tags))) ∧
    (List.filter (fun e => matches_filters e (some ['D']) none)
        [⟨['1'], [], [], ['D'], ['n'], []⟩, ⟨['2'], [], [], ['I'], ['n'], []⟩,
         ⟨['3'], [], [], ['D'], ['m'], []⟩]
      = [⟨['1'], [], [], ['D'], ['n'], []⟩, ⟨['3'], [], [], ['D'], ['m'], []⟩]) := by
  refine ⟨?_, by decide⟩
  intro e ll tf
  rw [Bool.eq_false_iff, Ne, matches_filters_true_iff]
  constructor
  · intro hneg
    rcases not_and_or.mp hneg with hna | hnb
    · left
      push_neg at hna
      exact hna
    · right
      push_neg at hnb
      exact hnb
  · rintro (⟨lv, rfl, hne⟩ | ⟨tags, rfl, hne⟩) hand
    · exact hne (hand.1 lv rfl)
    · exact hne (hand.2 tags rfl)

/-- Claim C4: the Width Tracker starts from zero, is advanced exactly once
per accepted entry by `observe` (the `max`-update of the two counters), is
monotonically non-decreasing, and after all files are processed equals the
maximum level length and maximum tag length over all accepted entries;
accepted levels `DEBUG`, `I` and tags `net`, `io` give widths 5 and 3. -/
theorem C4_width_tracker :
    (∀ (files : List (List (List Char))) (ll : Option (List Char))
        (tf : Option (List (List Char))),
      (processFiles files ll tf).2
          = ((processFiles files ll tf).1).foldl observe ⟨0, 0⟩ ∧
      (processFiles files ll tf).2.logLevelWidth
          = (((processFiles files ll tf).1).map (fun e => e.logLevel.length)).foldr max 0 ∧
      (processFiles files ll tf).2.tagWidth
          = (((processFiles files ll tf).1).map (fun e => e.tag.length)).foldr max 0) ∧
    (∀ (lines : List (List Char)) (ll : Option (List Char))
        (tf : Option (List (List Char))) (st : WidthState),
      st.logLevelWidth ≤ (read_through_input_file lines ll tf st).2.logLevelWidth ∧
      st.tagWidth ≤ (read_through_input_file lines ll tf st).2.tagWidth) ∧
    ([(⟨[], [], [], "DEBUG".data, "net".data, []⟩ : LogLine),
      ⟨[], [], [], "I".data, "io".data, []⟩].foldl observe ⟨0, 0⟩
        = (⟨5, 3⟩ : WidthState)) := by
  refine ⟨?_, ?_, by decide⟩
  · intro files ll tf
    rw [processFiles_spec]
    refine ⟨rfl, ?_, ?_⟩ <;> simp [foldl_observe_spec]
  · intro lines ll tf st
    rw [read_through_spec]
    rw [foldl_observe_spec]
    exact ⟨Nat.le_max_left _ _, Nat.le_max_left _ _⟩

/-- Modelled from the spec: the CSV field rule of §4.5 — a field is wrapped
in double quotes exactly when its raw value contains a comma, and is
otherwise (and inside the quotes) emitted verbatim, with no escaping. -/
def wrapIfComma (s : List Char) : List Char :=
  if ',' ∈ s then '"' :: s ++ ['"'] else s

/-- Claim C5: CSV output joins timestamp, level, tag, message with commas,
each field quoted iff it contains a comma, no embedded-quote escaping; in
the worked example only the comma-containing tag is quoted. -/
theorem C5_csv :
    (∀ e : LogLine,
      to_csv_string e
        = wrapIfComma e.timestamp ++ ',' :: wrapIfComma e.logLevel ++
            ',' :: wrapIfComma e.tag ++ ',' :: wrapIfComma e.message) ∧
    to_csv_string ⟨[], [], "2020-01-01 00:00:00".data, ['D'], "a,b".data, "hello".data⟩
      = "2020-01-01 00:00:00,D,\"a,b\",hello".data := by
  exact ⟨fun e => rfl, by decide⟩

/-- Modelled from the spec: left justification of §4.5 — pad with spaces up
to the column width, leaving the value unchanged when it already fills the
column. -/
def padSpec (s : List Char) (w : Nat) : List Char :=
  if w ≤ s.length then s else s ++ List.replicate (w - s.length) ' '

/-- Claim C6: aligned output renders
`(format)[timestamp] {level} tag: message` with the level and the tag
left-justified and space-padded to the tracked widths; the padded field is
exactly `max` of its own length and the width long, and level `I` at width
5 renders as `I` followed by four spaces. -/
theorem C6_aligned :
    (∀ (e : LogLine) (lw tw : Nat),
      to_spaced_string e lw tw
        = '(' :: e.logFormat ++ ')' :: '[' :: e.timestamp ++ ']' :: ' ' ::
            '{' :: padSpec e.logLevel lw ++ '}' :: ' ' ::
              padSpec e.tag tw ++ ':' :: ' ' :: e.message) ∧
    (∀ (s : List Char) (w : Nat), (ljust s w).length = max s.length w) ∧
    ljust ['I'] 5 = "I    ".data := by
  have hpad : ∀ (s : List Char) (w : Nat), ljust s w = padSpec s w := by
    intro s w
    unfold ljust padSpec
    by_cases h : w ≤ s.length
    · rw [if_pos h]
      have h0 : w - s.length = 0 := by omega
      simp [h0]
    · rw [if_neg h]
  refine ⟨?_, ?_, by decide⟩
  · intro e lw tw
    rw [to_spaced_string, hpad, hpad]
  · intro s w
    simp only [ljust, List.length_append, List.length_replicate]
    omega

/-- Claim C7, counterexample: the destination name `.csv` ends in the
literal `.csv`, yet `os.path.splitext` assigns it no extension (a
leading-dot file), so the script emits the raw stripped line, not CSV. -/
theorem C7_counterexample :
    (∃ u, ".csv".data = u ++ ".csv".data) ∧
    output_log_line (parse_log_line exLine) (some ".csv".data) false 0 0
      = pyStrip exLine ++ ['\n'] ∧
    output_log_line (parse_log_line exLine) (some ".csv".data) false 0 0
      ≠ to_csv_string (parse_log_line exLine) ++ ['\n'] := by
  exact ⟨⟨[], rfl⟩, by decide, by decide⟩

/-- Claim C7 (amended): CSV mode is used exactly when the destination
name's `splitext` extension is `csv` — equivalently, when it ends in
`.csv` *and* the final path component has a non-dot character before that
final dot (so `.csv`, `..csv` or `dir/.csv` are not CSV destinations);
aligned mode is used when the alignment flag is set and the destination is
not CSV; otherwise raw mode emits the raw line put through `strip` (which
on matched lines, beginning with `(`, only removes trailing whitespace);
every emitted record is followed by a line terminator.  The worked
examples of the claim hold. -/
theorem C7_output_modes_amended :
    (∀ name : List Char,
      ((splitextExt name).drop 1 = "csv".data ↔
        ∃ u, name = u ++ ".csv".data ∧
          ∃ c ∈ u.reverse.takeWhile (fun x => !(x == '/')), c ≠ '.')) ∧
    (∀ (e : LogLine) (name : List Char) (sc : Bool) (lw tw : Nat),
      (splitextExt name).drop 1 = "csv".data →
        output_log_line e (some name) sc lw tw = to_csv_string e ++ ['\n']) ∧
    (∀ (e : LogLine) (name : List Char) (lw tw : Nat),
      ¬(splitextExt name).drop 1 = "csv".data →
        (output_log_line e (some name) true lw tw
            = to_spaced_string e lw tw ++ ['\n'] ∧
         output_log_line e (some name) false lw tw
            = pyStrip e.rawValue ++ ['\n'])) ∧
    (∀ (e : LogLine) (lw tw : Nat),
      output_log_line e none true lw tw = to_spaced_string e lw tw ++ ['\n'] ∧
      output_log_line e none false lw tw = pyStrip e.rawValue ++ ['\n']) ∧
    (∀ (e : LogLine) (dst : Option (List Char)) (sc : Bool) (lw tw : Nat),
      ∃ body, output_log_line e dst sc lw tw = body ++ ['\n']) ∧
    (∀ l : List Char, logLineMatch l = true → pyStrip l = pyStripRight l) ∧
    output_log_line (parse_log_line exLine) none false 0 0 = exLine ++ ['\n'] ∧
    output_log_line (parse_log_line exLine) (some "out.csv".data) false 0 0
      = "2020-01-01 00:00:00,DEBUG,net,connected".data ++ ['\n'] := by
  refine ⟨csvExt_iff, ?_, ?_, ?_, ?_, ?_, by decide, by decide⟩
  · intro e name sc lw tw h
    rw [output_log_line, if_pos h]
  · intro e name lw tw h
    constructor
    · rw [output_log_line, if_neg h, if_pos rfl]
    · rw [output_log_line, if_neg h]
      rfl
  · intro e lw tw
    exact ⟨rfl, rfl⟩
  · intro e dst sc lw tw
    cases dst with
    | some name => exact ⟨_, rfl⟩
    | none => exact ⟨_, rfl⟩
  · intro l h
    obtain ⟨ds, ts, w, t, m, -, -, -, -, -, -, -, -, -, rfl⟩ :=
      (logLineMatch_iff l).mp h
    have hfront : (mkLogLine ds ts w t m).dropWhile isPySpace
        = mkLogLine ds ts w t m := by
      rw [mkLogLine]
      exact dropWhile_eq_self_head _ _ _ (by decide)
    rw [pyStrip, pyStripRight, hfront]

theorem C7_output_modes_amended_witness :
    output_log_line (parse_log_line exLine) (some "out.csv".data) true 0 0
      = to_csv_string (parse_log_line exLine) ++ ['\n'] ∧
    output_log_line (parse_log_line exLine) (some "out.txt".data) false 0 0
      = pyStrip (parse_log_line exLine).rawValue ++ ['\n'] ∧
    pyStrip exLine = pyStripRight exLine :=
  ⟨C7_output_modes_amended.2.1 (parse_log_line exLine) "out.csv".data true 0 0 (by decide),
   (C7_output_modes_amended.2.2.1 (parse_log_line exLine) "out.txt".data 0 0 (by decide)).2,
   C7_output_modes_amended.2.2.2.2.2.1 exLine (by decide)⟩

/-- Claim C8: the File Aggregator's result is exactly the in-order
`filterMap` of Matcher-then-Parser-then-Filter over the concatenation of
all files' lines, so files are processed in the given order, within-file
line order is preserved, accepted entries are never removed, and rejected
lines never appear; a two-file example aggregates in global order. -/
theorem C8_aggregator :
    (∀ (files : List (List (List Char))) (ll : Option (List Char))
        (tf : Option (List (List Char))),
      (processFiles files ll tf).1
        = (files.flatten).filterMap (lineStep ll tf)) ∧
    (∀ (ll : Option (List Char)) (tf : Option (List (List Char))) (line : List Char),
      lineStep ll tf line
        = if logLineMatch line then
            (if matches_filters (parse_log_line line) ll tf then some (parse_log_line line)
             else none)
          else none) ∧
    (processFiles
        [[exLine, "junk".data],
         ["(lmf2)[2021-02-02 11:11:11] {INFO} io: read".data]] none none).1
      = [parse_log_line exLine,
         parse_log_line "(lmf2)[2021-02-02 11:11:11] {INFO} io: read".data] := by
  refine ⟨?_, fun ll tf line => rfl, by decide⟩
  intro files ll tf
  rw [processFiles_spec]

/-- Claim C9: for every line accepted by the Matcher, parsing it,
reconstructing a line from the five extracted fields (the output format
string with no extra padding, i.e. widths 0), and parsing the
reconstruction recovers the same level, tag and message, whatever internal
whitespace the message carries. -/
theorem C9_roundtrip (l : List Char) (h : logLineMatch l = true) :
    (parse_log_line (to_spaced_string (parse_log_line l) 0 0)).logLevel
        = (parse_log_line l).logLevel ∧
    (parse_log_line (to_spaced_string (parse_log_line l) 0 0)).tag
        = (parse_log_line l).tag ∧
    (parse_log_line (to_spaced_string (parse_log_line l) 0 0)).message
        = (parse_log_line l).message := by
  obtain ⟨ds, ts, w, t, m, hdsne, hdsall, htslen, htsall, hwne, hwall,
    htne, htall, hend, rfl⟩ := (logLineMatch_iff l).mp h
  have hp1 := parse_mkLogLine ds ts w t m
    (not_mem_of_all_class _ _ _ hdsall (by decide))
    (not_mem_of_all_class _ _ _ hdsall (by decide))
    (not_mem_of_all_class _ _ _ htsall (by decide))
    (not_mem_of_all_class _ _ _ hwall (by decide))
    (not_mem_of_all_bne _ _ htall)
  rw [hp1]
  have hrecon : to_spaced_string
      ⟨mkLogLine ds ts w t m, 'l' :: 'm' :: 'f' :: ds, ts, w, pyStrip t, pyStrip m⟩ 0 0
      = mkLogLine ds ts w (pyStrip t) (pyStrip m) := by
    simp [to_spaced_string, ljust_zero, mkLogLine]
  rw [hrecon]
  have hp2 := parse_mkLogLine ds ts w (pyStrip t) (pyStrip m)
    (not_mem_of_all_class _ _ _ hdsall (by decide))
    (not_mem_of_all_class _ _ _ hdsall (by decide))
    (not_mem_of_all_class _ _ _ htsall (by decide))
    (not_mem_of_all_class _ _ _ hwall (by decide))
    (fun hm => (not_mem_of_all_bne _ _ htall) (mem_pyStrip_mem _ _ hm))
  rw [hp2]
  exact ⟨rfl, pyStrip_idem t, pyStrip_idem m⟩

theorem C9_roundtrip_witness :
    (parse_log_line (to_spaced_string (parse_log_line exLine) 0 0)).logLevel
        = (parse_log_line exLine).logLevel ∧
    (parse_log_line (to_spaced_string (parse_log_line exLine) 0 0)).tag
        = (parse_log_line exLine).tag ∧
    (parse_log_line (to_spaced_string (parse_log_line exLine) 0 0)).message
        = (parse_log_line exLine).message :=
  C9_roundtrip exLine (by decide)

/-- Claim C10: `parse_log_line` is total on every input string — each
Python primitive it uses (`find` with its `-1` sentinel, clamping slices,
`strip`) is total, so it always returns a `LogLine` carrying the input as
its raw value and never raises; on the delimiter-free input `hello` the
`-1` sentinels still produce substrings (`line[0:-1]`, i.e. `hell`). -/
theorem C10_parse_total :
    (∀ line : List Char, (parse_log_line line).rawValue = line) ∧
    parse_log_line "hello".data
      = ⟨"hello".data, "hell".data, "hell".data, "hell".data, "hell".data,
          "hello".data⟩ ∧
    parse_log_line [] = ⟨[], [], [], [], [], []⟩ := by
  exact ⟨fun line => rfl, by decide, by decide⟩
